import Mathlib

/-!
Verification of the core decision-and-evaluation pipeline of the
doge_quant_system repository: signal aggregation (`core/signal_combiner.py`),
risk governance (`core/risk_manager.py`), execution gating
(`execution/order_executor.py`) and historical simulation
(`backtesting/backtester.py`).

Numeric values (prices, balances, sizes, confidences, wall-clock seconds) are
modelled as exact rationals; Python dictionaries keyed by strategy name are
modelled as `String → Option ℚ`; the market-access interface and the current
wall-clock are passed explicitly as parameters, so that one call of a Python
method corresponds to one application of the Lean function.
-/

set_option maxHeartbeats 1000000

namespace DogeQuant

/-! ## Signal aggregation — `core/signal_combiner.py` -/

/-- One strategy signal, as consumed by `SignalCombiner.combine_signals`:
dictionary with keys `strategy`, `signal`, `confidence` (the `reason` string
plays no role in the numeric outcome and is omitted). -/
structure Signal where
  strategy : String
  signal : ℚ
  confidence : ℚ
deriving Repr, DecidableEq

/-- The numeric part of the combined signal returned by `combine_signals`. -/
structure CombinedSignal where
  final_signal : ℚ
  confidence : ℚ
deriving Repr, DecidableEq

/-- `weights.get(strategy_name, 1.0/len(strategy_signals) if len(strategy_signals) > 0 else 0)`
from `combine_signals` (line 76): configured weight of a strategy, defaulting
to the equal split `1/N`. -/
def lookupWeight (weights : String → Option ℚ) (n : ℕ) (name : String) : ℚ :=
  (weights name).getD (if 0 < n then 1 / (n : ℚ) else 0)

/-- Accumulator of the loop in `combine_signals`:
`total_weight`, `weighted_signal`, `total_confidence`. -/
structure CombAcc where
  total_weight : ℚ
  weighted_signal : ℚ
  total_confidence : ℚ
deriving Repr, DecidableEq

/-- One iteration of the loop in `combine_signals` (lines 70–96): a signal
contributes only when `confidence > 0`, adding `signal*confidence*weight` to
the numerator and `confidence*weight` to both `total_weight` and
`total_confidence`. -/
def combStep (weights : String → Option ℚ) (n : ℕ) (acc : CombAcc) (s : Signal) : CombAcc :=
  let weight := lookupWeight weights n s.strategy
  if 0 < s.confidence then
    { total_weight := acc.total_weight + s.confidence * weight
      weighted_signal := acc.weighted_signal + s.signal * s.confidence * weight
      total_confidence := acc.total_confidence + s.confidence * weight }
  else acc

/-- `SignalCombiner.combine_signals` (lines 41–112):
`final_signal = weighted_signal / total_weight if total_weight > 0 else 0`,
`confidence = total_confidence / total_weight if total_weight > 0 else 0`,
then `confidence = max(0, min(1, confidence))`. -/
def combine_signals (weights : String → Option ℚ) (signals : List Signal) : CombinedSignal :=
  let acc := signals.foldl (combStep weights signals.length) ⟨0, 0, 0⟩
  let final_signal := if 0 < acc.total_weight then acc.weighted_signal / acc.total_weight else 0
  let conf := if 0 < acc.total_weight then acc.total_confidence / acc.total_weight else 0
  { final_signal := final_signal, confidence := max 0 (min 1 conf) }

/-- `SignalCombiner.should_trade` (lines 114–135):
`abs(final_signal) >= threshold and confidence >= 0.2`. -/
def should_trade (c : CombinedSignal) (threshold : ℚ) : Bool :=
  decide (threshold ≤ |c.final_signal|) && decide ((1 : ℚ)/5 ≤ c.confidence)

/-- `SignalCombiner.determine_order_type` (lines 137–149):
`"buy" if signal > 0 else "sell"`. -/
def determine_order_type (signal : ℚ) : String :=
  if 0 < signal then "buy" else "sell"

/-- `SignalCombiner.calculate_position_size` (lines 151–176):
`base_position = account_value * 0.01`,
`signal_factor = min(3.0, max(0.5, abs(signal) * 2))`,
`position_size = base_position * signal_factor / current_price`. -/
def calculate_position_size (signal account_value current_price : ℚ) : ℚ :=
  let base_position := account_value * (1/100)
  let signal_factor := min 3 (max (1/2) (|signal| * 2))
  base_position * signal_factor / current_price

/-- Concrete weight table for the C9 counterexample: strategy "a" weighted
`1`, strategy "b" weighted `-1` (any other strategy unconfigured). -/
def c9weights : String → Option ℚ :=
  fun name => if name = "a" then some 1 else if name = "b" then some (-1) else none

/-- Concrete signal list for the C9 counterexample: both signals carry
confidence `1 > 0`, and strategy "a" has strictly positive weight. -/
def c9signals : List Signal := [⟨"a", 0, 1⟩, ⟨"b", 0, 1⟩]

/-! ## Risk governance — `core/risk_manager.py`

The account value returned by `_get_current_balance()` and the wall clock
`time.time()` are passed as explicit parameters; `max_daily_loss` is the value
`config_manager.get_risk_params().get("max_daily_loss", 3.0)`. Within one
method call all reads of the balance and of the clock see one instant, so they
are modelled by a single parameter. -/

/-- The mutable fields of `RiskManager` that the rolling-loss circuit breaker
reads and writes. -/
structure RiskState where
  daily_pnl : ℚ
  daily_loss : ℚ
  daily_reset_time : ℚ
  initial_balance : ℚ
  last_balance : ℚ
  max_daily_loss_reached : Bool
deriving Repr, DecidableEq

/-- `RiskManager.reset_daily_metrics` (lines 82–93). -/
def reset_daily_metrics (now current_balance : ℚ) : RiskState :=
  { daily_pnl := 0
    daily_loss := 0
    daily_reset_time := now
    initial_balance := current_balance
    last_balance := current_balance
    max_daily_loss_reached := false }

/-- `RiskManager.update_metrics` (lines 95–121): reset the window when it is
older than 86400 seconds, recompute `daily_pnl`/`daily_loss`/`last_balance`,
then latch `max_daily_loss_reached` when the single-step loss ratio reaches
the configured `max_daily_loss`. -/
def update_metrics (s : RiskState) (now current_balance max_daily_loss : ℚ) : RiskState :=
  let s1 := if 86400 < now - s.daily_reset_time then reset_daily_metrics now current_balance else s
  let s2 := { s1 with
    daily_pnl := current_balance - s1.initial_balance
    daily_loss := max 0 (s1.last_balance - current_balance)
    last_balance := current_balance }
  if 0 < s2.initial_balance then
    let loss_percent := s2.daily_loss / s2.initial_balance * 100
    if max_daily_loss ≤ loss_percent ∧ s2.max_daily_loss_reached = false then
      { s2 with max_daily_loss_reached := true }
    else s2
  else s2

/-- `RiskManager.should_stop_trading` (lines 156–182): returns `False` when
`initial_balance <= 0`; otherwise returns
`loss_percent >= max_daily_loss` for
`loss_percent = (initial_balance - account_value) / initial_balance * 100`,
setting `max_daily_loss_reached` when stopping and clearing it when not.
The pair is (returned bool, state after the call). -/
def should_stop_trading (s : RiskState) (account_value max_daily_loss : ℚ) :
    Bool × RiskState :=
  if s.initial_balance ≤ 0 then (false, s)
  else
    let loss_percent := (s.initial_balance - account_value) / s.initial_balance * 100
    let stop : Bool := decide (max_daily_loss ≤ loss_percent)
    if stop ∧ s.max_daily_loss_reached = false then
      (stop, { s with max_daily_loss_reached := true })
    else if stop = false then
      (stop, { s with max_daily_loss_reached := false })
    else (stop, s)

/-- `RiskManager.check_position_size` (lines 123–154), with the account-value
and price lookups folded into the precomputed cap
`max_doge_position = account_value * max_position_percent / 100 / current_price`:
returns `min(proposed_size, max_doge_position)`. -/
def check_position_size (proposed_size max_doge_position : ℚ) : ℚ :=
  min proposed_size max_doge_position

/-! ## Execution gating — `execution/order_executor.py`

`time.time()` is one instant `now` per call; `risk_manager.should_stop_trading()`
is the boolean `risk_stop` it returns at that instant; the market-access call
`market_data.place_order(...)` is an explicit outcome parameter (either a
normal OKX-style result dictionary or a raised exception). -/

/-- Terminal status strings stored in `order_history` records. -/
inductive OrderStatus
  | success
  | failed
  | error
  | pending
  | cancelled
deriving Repr, DecidableEq

/-- One entry of `OrderExecutor.order_history` (the order ledger); the
`timestamp`/`execution_time` fields play no role in the claims and are
omitted. -/
structure OrderRecord where
  type : String
  size : ℚ
  price : Option ℚ
  order_id : String
  status : OrderStatus
deriving Repr, DecidableEq

/-- The mutable fields of `OrderExecutor`. -/
structure ExecutorState where
  last_order_time : ℚ
  min_order_interval : ℚ
  order_history : List OrderRecord
deriving Repr, DecidableEq

/-- `OrderExecutor.__init__` (lines 34–47): `last_order_time = 0`,
`min_order_interval = 60`, empty ledger. -/
def initExecutorState : ExecutorState :=
  { last_order_time := 0, min_order_interval := 60, order_history := [] }

/-- Result dictionary of `market_data.place_order`: `code` (success is `"0"`),
first `ordId` of the `data` list, and `msg`. -/
structure OkxResult where
  code : String
  ordId : String
  msg : String
deriving Repr, DecidableEq

/-- Outcome of the market-access call: a returned result dictionary, or a
raised exception carrying its message. -/
inductive PlaceOrderOutcome
  | ok (result : OkxResult)
  | exn (msg : String)
deriving Repr, DecidableEq

/-- The dictionaries `execute_order` returns: a rejection with the
`time_constraint`/`risk_constraint` detail booleans (lines 84–91), or a
submitted order's success/failed/error result. -/
inductive ExecResult
  | rejected (time_constraint risk_constraint : Bool)
  | submitted_success (order_id : String)
  | submitted_failed (msg : String)
  | submitted_error (msg : String)
deriving Repr, DecidableEq

/-- The throttle-gate condition
`time.time() - self.last_order_time < self.min_order_interval`. -/
def timeConstraintB (s : ExecutorState) (now : ℚ) : Bool :=
  decide (now - s.last_order_time < s.min_order_interval)

/-- `OrderExecutor._can_place_order` (lines 49–67): false when the throttle
gate fails, false when the risk gate fails, true otherwise. -/
def can_place_order (s : ExecutorState) (now : ℚ) (risk_stop : Bool) : Bool :=
  if timeConstraintB s now then false
  else if risk_stop then false
  else true

/-- `OrderExecutor.execute_order` (lines 69–182). Rejection happens before the
size clamp and before the market-access call; on a returned result
`last_order_time` advances (line 120) and a `success`/`failed` record is
appended; on a raised exception the `error` record is appended but line 120
was never reached, so `last_order_time` keeps its prior value. -/
def execute_order (s : ExecutorState) (now : ℚ) (risk_stop : Bool)
    (order_type : String) (size max_doge_position : ℚ)
    (outcome : PlaceOrderOutcome) (current_price : ℚ) :
    ExecResult × ExecutorState :=
  if can_place_order s now risk_stop = false then
    (.rejected (timeConstraintB s now) risk_stop, s)
  else
    let adjusted_size := check_position_size size max_doge_position
    match outcome with
    | .ok result =>
      let s1 := { s with last_order_time := now }
      if result.code = "0" then
        (.submitted_success result.ordId,
         { s1 with order_history := s1.order_history ++
            [{ type := order_type, size := adjusted_size, price := some current_price,
               order_id := result.ordId, status := .success }] })
      else
        (.submitted_failed result.msg,
         { s1 with order_history := s1.order_history ++
            [{ type := order_type, size := adjusted_size, price := none,
               order_id := "failed", status := .failed }] })
    | .exn msg =>
      (.submitted_error msg,
       { s with order_history := s.order_history ++
          [{ type := order_type, size := adjusted_size, price := none,
             order_id := "error", status := .error }] })

/-- Result of `OrderExecutor.cancel_order`. -/
inductive CancelResult
  | cancelled (order_id : String)
  | notCancellable
deriving Repr, DecidableEq

/-- The scan of `OrderExecutor.cancel_order` (lines 224–235) over the ledger:
find the first record matching the id that is still `pending`, flip it to
`cancelled`; `none` when no such record exists. -/
def cancel_scan : List OrderRecord → String → Option (List OrderRecord)
  | [], _ => none
  | r :: rest, oid =>
    if r.order_id = oid ∧ r.status = OrderStatus.pending then
      some ({ r with status := .cancelled } :: rest)
    else (cancel_scan rest oid).map (r :: ·)

/-- `OrderExecutor.cancel_order` (lines 212–246): succeeds only when the scan
found a `pending` record with the given id, otherwise returns the
"cannot cancel" failure and leaves the ledger untouched. -/
def cancel_order (s : ExecutorState) (oid : String) : CancelResult × ExecutorState :=
  match cancel_scan s.order_history oid with
  | some h => (.cancelled oid, { s with order_history := h })
  | none => (.notCancellable, s)

/-- States of an `OrderExecutor` reachable from construction through any
sequence of `execute_order` and `cancel_order` calls. -/
inductive Reachable : ExecutorState → Prop
  | init : Reachable initExecutorState
  | exec (s : ExecutorState) (now : ℚ) (risk_stop : Bool) (order_type : String)
      (size max_doge_position : ℚ) (outcome : PlaceOrderOutcome) (current_price : ℚ) :
      Reachable s →
      Reachable (execute_order s now risk_stop order_type size max_doge_position
        outcome current_price).2
  | cancel (s : ExecutorState) (oid : String) :
      Reachable s → Reachable (cancel_order s oid).2

/-! ## Historical simulation — `backtesting/backtester.py`

The strategies are external signal producers: per simulated bar, the bar's
close price together with the aggregated `final_signal`/`confidence` the
combiner produced for that bar are the inputs of the trading step, so a bar is
modelled as that triple. `Backtester.__init__` fixes `commission = 0.001`. -/

/-- `Backtester.commission = 0.001` (line 59). -/
def commission : ℚ := 1/1000

/-- Simulated ledger: `current_cash` and `current_position` of the replay. -/
structure SimState where
  cash : ℚ
  position : ℚ
deriving Repr, DecidableEq

/-- One simulated bar: its close price and the combined signal the aggregator
produced from the strategies' signals at that bar. -/
structure BarSignal where
  price : ℚ
  final_signal : ℚ
  confidence : ℚ
deriving Repr, DecidableEq

/-- One entry of the backtest `trade_log` (the fields the performance
statistics read: `type` and `price`; plus the traded `size`). -/
structure SimTrade where
  type : String
  size : ℚ
  price : ℚ
deriving Repr, DecidableEq

/-- One iteration of the backtest main loop (`run_backtest` lines 181–229):
when `should_trade` with the default threshold `0.3`, size the order with
`calculate_position_size` against `current_cash + current_position * price`,
then execute a buy only if cash covers `size * price * (1 + commission)`, a
sell only if the position covers the full size; otherwise the bar trades
nothing. -/
def simStep (st : SimState) (bar : BarSignal) : SimState × Option SimTrade :=
  if should_trade ⟨bar.final_signal, bar.confidence⟩ (3/10) then
    let order_type := determine_order_type bar.final_signal
    let current_price := bar.price
    let position_size := calculate_position_size bar.final_signal
      (st.cash + st.position * current_price) current_price
    if order_type = "buy" ∧ position_size * current_price * (1 + commission) ≤ st.cash then
      let cost := position_size * current_price * (1 + commission)
      ({ cash := st.cash - cost, position := st.position + position_size },
       some { type := "buy", size := position_size, price := current_price })
    else if order_type = "sell" ∧ position_size ≤ st.position then
      let revenue := position_size * current_price * (1 - commission)
      ({ cash := st.cash + revenue, position := st.position - position_size },
       some { type := "sell", size := position_size, price := current_price })
    else (st, none)
  else (st, none)

/-- The backtest main loop over the prepared bars: final ledger state and the
`trade_log` in chronological order. -/
def simRun : SimState → List BarSignal → SimState × List SimTrade
  | st, [] => (st, [])
  | st, b :: bs =>
    let step := simStep st b
    let rest := simRun step.1 bs
    (rest.1, step.2.toList ++ rest.2)

/-- The ledger states recorded bar by bar (`positions.iloc[i]`,
`cash.iloc[i]`): the state entering the loop followed by the state after each
bar. -/
def simStates (st : SimState) (bars : List BarSignal) : List SimState :=
  bars.scanl (fun s b => (simStep s b).1) st

/-- The pass of `run_backtest` lines 252–259 over adjacent trade-log entries:
for every `i ≥ 1` with `trade_log[i].type == "sell"` and
`trade_log[i-1].type == "buy"`, accumulate
`pnl = (sell_price - buy_price) / buy_price * 100` into `total_pnl` and count
it in `winning_trades` when `pnl > 0`. Returns
`(winning_trades, total_pnl)`. -/
def pairScan : List SimTrade → ℕ × ℚ
  | a :: b :: rest =>
    let acc := pairScan (b :: rest)
    if b.type = "sell" ∧ a.type = "buy" then
      let pnl := (b.price - a.price) / a.price * 100
      (if 0 < pnl then acc.1 + 1 else acc.1, acc.2 + pnl)
    else acc
  | _ => (0, 0)

/-- The trade statistics of `run_backtest` (lines 246–265):
`win_rate = winning_trades / (num_trades // 2) * 100` and
`avg_return_per_trade = total_pnl / (num_trades // 2)` when `num_trades > 1`,
both `0` otherwise. Returns `(win_rate, avg_return_per_trade)`. -/
def tradeStats (log : List SimTrade) : ℚ × ℚ :=
  let num_trades := log.length
  let scan := pairScan log
  if 1 < num_trades then
    ((scan.1 : ℚ) / ((num_trades / 2 : ℕ) : ℚ) * 100,
     scan.2 / ((num_trades / 2 : ℕ) : ℚ))
  else (0, 0)

/-- Modelled from the spec (§4.4): "Round-trip trades are paired as adjacent
buy-then-sell entries in the trade log" — the list of adjacent pairs whose
first entry is a buy and second a sell, for comparison against the code's
`pairScan`/`tradeStats`. -/
def roundTripPairs : List SimTrade → List (SimTrade × SimTrade)
  | a :: b :: rest =>
    (if a.type = "buy" ∧ b.type = "sell" then [(a, b)] else []) ++ roundTripPairs (b :: rest)
  | _ => []

/-- Modelled from the spec (§4.4): win rate as "the fraction of such pairs
with positive price appreciation", as a percentage. -/
def specWinRate (log : List SimTrade) : ℚ :=
  100 * (((roundTripPairs log).filter (fun p => p.1.price < p.2.price)).length : ℚ) /
    ((roundTripPairs log).length : ℚ)

/-- Modelled from the spec (§4.4): average return per trade as "mean
percentage gain across pairs". -/
def specAvgReturn (log : List SimTrade) : ℚ :=
  ((roundTripPairs log).map (fun p => (p.2.price - p.1.price) / p.1.price * 100)).sum /
    ((roundTripPairs log).length : ℚ)

/-- `Backtester.run_backtest` (lines 105–293) after the data preparation:
fewer than 50 prepared bars raises `ValueError` before any bar is simulated;
otherwise the loop starts at index 50 (`for i in range(50, len(df))`) and the
performance statistics are computed from the resulting trade log. -/
def run_backtest (df : List BarSignal) (initial_capital : ℚ) :
    Except String (SimState × List SimTrade × ℚ × ℚ) :=
  if df.length < 50 then
    Except.error "历史数据不足，无法进行回测"
  else
    let r := simRun { cash := initial_capital, position := 0 } (df.drop 50)
    Except.ok (r.1, r.2, tradeStats r.2)

/-- Concrete bar sequence for the C7 counterexample: two strongly bullish bars
at price 1 followed by two strongly bearish bars at price 2, producing the
trade log buy, buy, sell, sell (pyramiding then unwinding). -/
def c7bars : List BarSignal :=
  [⟨1, 1, 1⟩, ⟨1, 1, 1⟩, ⟨2, -1, 1⟩, ⟨2, -1, 1⟩]

/-- The trade log the simulator produces on `c7bars` from 1000 USDT. -/
def c7log : List SimTrade := (simRun { cash := 1000, position := 0 } c7bars).2

/-- Strict buy/sell alternation of a trade log: buy-then-sell round trips in
sequence, optionally ending in one unpaired trailing buy. -/
inductive AltBuySell : List SimTrade → Prop
  | nil : AltBuySell []
  | single (t : SimTrade) : t.type = "buy" → AltBuySell [t]
  | pair (b s : SimTrade) (rest : List SimTrade) :
      b.type = "buy" → s.type = "sell" → AltBuySell rest → AltBuySell (b :: s :: rest)

/-- A ledger record carries one of the three statuses `execute_order` writes. -/
def TerminalStatus (r : OrderRecord) : Prop :=
  r.status = .success ∨ r.status = .failed ∨ r.status = .error

/-! ## Helper lemmas -/

theorem combStep_diff (weights : String → Option ℚ) (n : ℕ) (acc : CombAcc) (s : Signal) :
    (combStep weights n acc s).total_confidence - (combStep weights n acc s).total_weight
      = acc.total_confidence - acc.total_weight := by
  unfold combStep
  split <;> simp

theorem foldl_comb_diff (weights : String → Option ℚ) (n : ℕ) (l : List Signal) (acc : CombAcc) :
    (l.foldl (combStep weights n) acc).total_confidence
      - (l.foldl (combStep weights n) acc).total_weight
      = acc.total_confidence - acc.total_weight := by
  induction l generalizing acc with
  | nil => rfl
  | cons s rest ih =>
    rw [List.foldl_cons, ih, combStep_diff]

theorem foldl_comb_skip (weights : String → Option ℚ) (n : ℕ) (l : List Signal) (acc : CombAcc)
    (h : ∀ s ∈ l, s.confidence = 0) : l.foldl (combStep weights n) acc = acc := by
  induction l generalizing acc with
  | nil => rfl
  | cons s rest ih =>
    rw [List.foldl_cons]
    have hs : s.confidence = 0 := h s (List.mem_cons_self _ _)
    have hst : combStep weights n acc s = acc := by
      unfold combStep
      rw [if_neg]
      rw [hs]
      exact lt_irrefl 0
    rw [hst]
    exact ih acc (fun t ht => h t (List.mem_cons_of_mem _ ht))

/-! ## Claim theorems -/

/-- C5: for every input list of signals in which every signal's confidence is
0 (and more generally whenever the accumulated weighted-confidence denominator
is 0), `combine_signals` returns `final_signal = 0` and `confidence = 0`. -/
theorem C5_zero_denominator (weights : String → Option ℚ) (signals : List Signal) :
    ((∀ s ∈ signals, s.confidence = 0) →
      (combine_signals weights signals).final_signal = 0
      ∧ (combine_signals weights signals).confidence = 0)
    ∧ ((signals.foldl (combStep weights signals.length) ⟨0, 0, 0⟩).total_weight = 0 →
      (combine_signals weights signals).final_signal = 0
      ∧ (combine_signals weights signals).confidence = 0) := by
  have key : (signals.foldl (combStep weights signals.length) ⟨0, 0, 0⟩).total_weight = 0 →
      (combine_signals weights signals).final_signal = 0
      ∧ (combine_signals weights signals).confidence = 0 := by
    intro h
    simp only [combine_signals, h]
    norm_num
  refine ⟨?_, key⟩
  intro h
  apply key
  rw [foldl_comb_skip weights signals.length signals ⟨0, 0, 0⟩ h]

/-- Witness for C5 on the single zero-confidence signal `("a", 1, 0)` with no
configured weights. -/
theorem C5_zero_denominator_witness :
    (combine_signals (fun _ => none) [⟨"a", 1, 0⟩]).final_signal = 0
    ∧ (combine_signals (fun _ => none) [⟨"a", 1, 0⟩]).confidence = 0 :=
  (C5_zero_denominator (fun _ => none) [⟨"a", 1, 0⟩]).1 (by decide)

/-- C6: for fixed account value and current price, `calculate_position_size`
is monotonically non-decreasing in `abs(signal)`, and the returned size times
the price always lies within `[0.5%, 3%]` of the account value. -/
theorem C6_position_size (account_value current_price s1 s2 : ℚ)
    (hav : 0 ≤ account_value) (hp : 0 < current_price) :
    (|s1| ≤ |s2| →
      calculate_position_size s1 account_value current_price
        ≤ calculate_position_size s2 account_value current_price)
    ∧ 1/200 * account_value
        ≤ calculate_position_size s1 account_value current_price * current_price
    ∧ calculate_position_size s1 account_value current_price * current_price
        ≤ 3/100 * account_value := by
  have hlo : ∀ x : ℚ, 1/2 ≤ min 3 (max (1/2) (|x| * 2)) :=
    fun x => le_min (by norm_num) (le_max_left _ _)
  have hhi : ∀ x : ℚ, min 3 (max (1/2) (|x| * 2)) ≤ 3 := fun x => min_le_left _ _
  unfold calculate_position_size
  refine ⟨?_, ?_, ?_⟩
  · intro hs
    have hmono : min 3 (max (1/2) (|s1| * 2)) ≤ min 3 (max (1/2) (|s2| * 2)) := by
      apply min_le_min le_rfl
      apply max_le_max le_rfl
      nlinarith
    have hbase : 0 ≤ account_value * (1/100) := by positivity
    have hnum := mul_le_mul_of_nonneg_left hmono hbase
    exact div_le_div_of_nonneg_right hnum hp.le
  · rw [div_mul_cancel₀ _ (ne_of_gt hp)]
    nlinarith [hlo s1]
  · rw [div_mul_cancel₀ _ (ne_of_gt hp)]
    nlinarith [hhi s1]

/-- Witness for C6 at account value 100 USDT, price 1, signals 0 and 1. -/
theorem C6_position_size_witness :
    ((|(0 : ℚ)| ≤ |(1 : ℚ)| →
      calculate_position_size 0 100 1 ≤ calculate_position_size 1 100 1)
    ∧ 1/200 * 100 ≤ calculate_position_size 0 100 1 * 1
    ∧ calculate_position_size 0 100 1 * 1 ≤ 3/100 * 100) :=
  C6_position_size 100 1 0 1 (by norm_num) (by norm_num)

/-- C8: a backtest over fewer than 50 prepared bars fails immediately with the
insufficient-history error, before any bar is simulated; with 50 or more bars
`run_backtest` does not fail for this reason. -/
theorem C8_insufficient_history (df : List BarSignal) (cap : ℚ) :
    (df.length < 50 → run_backtest df cap = Except.error "历史数据不足，无法进行回测")
    ∧ (50 ≤ df.length → ∃ r, run_backtest df cap = Except.ok r) := by
  constructor
  · intro h
    unfold run_backtest
    rw [if_pos h]
  · intro h
    unfold run_backtest
    rw [if_neg (not_lt.mpr h)]
    exact ⟨_, rfl⟩

/-- Witness for C8: the empty series fails, a 50-bar series succeeds. -/
theorem C8_insufficient_history_witness :
    run_backtest [] 1000 = Except.error "历史数据不足，无法进行回测"
    ∧ ∃ r, run_backtest (List.replicate 50 ⟨1, 0, 0⟩) 1000 = Except.ok r :=
  ⟨(C8_insufficient_history [] 1000).1 (by decide),
   (C8_insufficient_history (List.replicate 50 ⟨1, 0, 0⟩) 1000).2 (by decide)⟩

/-- A call that fails a pre-submission gate reduces to the rejection pair. -/
theorem exec_rejected (s : ExecutorState) (now : ℚ) (risk_stop : Bool)
    (order_type : String) (size max_doge_position : ℚ) (oc : PlaceOrderOutcome)
    (current_price : ℚ) (h : can_place_order s now risk_stop = false) :
    execute_order s now risk_stop order_type size max_doge_position oc current_price
      = (ExecResult.rejected (timeConstraintB s now) risk_stop, s) := by
  unfold execute_order
  rw [if_pos h]

/-- C3: when the throttle gate or the risk-halt gate fails, `execute_order`
returns a rejection carrying the two gate booleans (at least one of which is
true, identifying the failed gate), leaves the executor state — in particular
`last_order_time` — unchanged, and its behaviour does not depend on the
market-access outcome (`place_order` is never consulted). -/
theorem C3_gate_rejection (s : ExecutorState) (now : ℚ) (risk_stop : Bool)
    (order_type : String) (size max_doge_position current_price : ℚ)
    (oc oc2 : PlaceOrderOutcome)
    (h : can_place_order s now risk_stop = false) :
    (execute_order s now risk_stop order_type size max_doge_position oc current_price).1
        = ExecResult.rejected (timeConstraintB s now) risk_stop
    ∧ (execute_order s now risk_stop order_type size max_doge_position oc current_price).2 = s
    ∧ (timeConstraintB s now = true ∨ risk_stop = true)
    ∧ execute_order s now risk_stop order_type size max_doge_position oc current_price
        = execute_order s now risk_stop order_type size max_doge_position oc2 current_price := by
  have he : ∀ x : PlaceOrderOutcome,
      execute_order s now risk_stop order_type size max_doge_position x current_price
        = (ExecResult.rejected (timeConstraintB s now) risk_stop, s) :=
    fun x => exec_rejected s now risk_stop order_type size max_doge_position x current_price h
  have hgate : timeConstraintB s now = true ∨ risk_stop = true := by
    unfold can_place_order at h
    by_cases ht : timeConstraintB s now = true
    · exact Or.inl ht
    · rw [if_neg ht] at h
      by_cases hr : risk_stop = true
      · exact Or.inr hr
      · rw [if_neg hr] at h
        exact absurd h (by simp)
  rw [he oc, he oc2]
  exact ⟨rfl, rfl, hgate, rfl⟩

/-- Witness for C3: a freshly constructed executor throttles a call at second
10 (10 − 0 < 60) and the outcome is independent of the market response. -/
theorem C3_gate_rejection_witness :
    (execute_order initExecutorState 10 false "buy" 5 100 (.ok ⟨"0", "oid1", ""⟩) 1).1
        = ExecResult.rejected (timeConstraintB initExecutorState 10) false
    ∧ (execute_order initExecutorState 10 false "buy" 5 100 (.ok ⟨"0", "oid1", ""⟩) 1).2
        = initExecutorState
    ∧ (timeConstraintB initExecutorState 10 = true ∨ false = true)
    ∧ execute_order initExecutorState 10 false "buy" 5 100 (.ok ⟨"0", "oid1", ""⟩) 1
        = execute_order initExecutorState 10 false "buy" 5 100 (.exn "boom") 1 :=
  C3_gate_rejection initExecutorState 10 false "buy" 5 100 1
    (.ok ⟨"0", "oid1", ""⟩) (.exn "boom")
    (by norm_num [can_place_order, timeConstraintB, initExecutorState])

/-- C2: with a positive window-start balance, `should_stop_trading` reports
the halt exactly when the rolling loss ratio
`(window_start_balance - current_balance) / window_start_balance * 100`
reaches or exceeds `max_daily_loss`; the latched flag always agrees with the
reported value after the call (so it stays true while the ratio stays at or
above the threshold and clears as soon as it drops below); and after the
24-hour window reset inside `update_metrics` both the flag and the reported
halt are false again. -/
theorem C2_risk_halt (s : RiskState) (account_value max_daily_loss now current_balance : ℚ)
    (h : 0 < s.initial_balance) :
    ((should_stop_trading s account_value max_daily_loss).1 = true
      ↔ max_daily_loss ≤ (s.initial_balance - account_value) / s.initial_balance * 100)
    ∧ (should_stop_trading s account_value max_daily_loss).2.max_daily_loss_reached
        = (should_stop_trading s account_value max_daily_loss).1
    ∧ (86400 < now - s.daily_reset_time → 0 < current_balance → 0 < max_daily_loss →
        (update_metrics s now current_balance max_daily_loss).max_daily_loss_reached = false
        ∧ (should_stop_trading (update_metrics s now current_balance max_daily_loss)
            current_balance max_daily_loss).1 = false) := by
  have hne : ¬ s.initial_balance ≤ 0 := not_le.mpr h
  have hfst : ∀ av m : ℚ, (should_stop_trading s av m).1
      = decide (m ≤ (s.initial_balance - av) / s.initial_balance * 100) := by
    intro av m
    unfold should_stop_trading
    rw [if_neg hne]
    dsimp only
    split
    · rfl
    · split <;> rfl
  refine ⟨?_, ?_, ?_⟩
  · rw [hfst, decide_eq_true_eq]
  · unfold should_stop_trading
    rw [if_neg hne]
    by_cases hstop : max_daily_loss ≤ (s.initial_balance - account_value) / s.initial_balance * 100
    · by_cases hflag : s.max_daily_loss_reached = false
      · simp [hstop, hflag]
      · simp [hstop, hflag]
    · simp [hstop]
  · intro hreset hcb hm
    have hml : ¬ max_daily_loss ≤ 0 := not_le.mpr hm
    have hcb2 : ¬ current_balance ≤ 0 := not_le.mpr hcb
    constructor
    · simp [update_metrics, reset_daily_metrics, hreset, hml, hcb]
    · simp [update_metrics, reset_daily_metrics, should_stop_trading, hreset, hml, hcb2, hcb]

/-- Witness for C2: window-start balance 100, balance 90 (10% rolling loss),
threshold 3%, and a window reset 90000 seconds later at balance 50. -/
theorem C2_risk_halt_witness :
    (((should_stop_trading ⟨0, 0, 0, 100, 100, false⟩ 90 3).1 = true
      ↔ (3 : ℚ) ≤ ((100 : ℚ) - 90) / 100 * 100)
    ∧ (should_stop_trading ⟨0, 0, 0, 100, 100, false⟩ 90 3).2.max_daily_loss_reached
        = (should_stop_trading ⟨0, 0, 0, 100, 100, false⟩ 90 3).1
    ∧ ((86400 : ℚ) < 90000 - 0 → (0 : ℚ) < 50 → (0 : ℚ) < 3 →
        (update_metrics ⟨0, 0, 0, 100, 100, false⟩ 90000 50 3).max_daily_loss_reached = false
        ∧ (should_stop_trading (update_metrics ⟨0, 0, 0, 100, 100, false⟩ 90000 50 3) 50 3).1
            = false)) :=
  C2_risk_halt ⟨0, 0, 0, 100, 100, false⟩ 90 3 90000 50 (by norm_num)

/-- C1 counterexample: from a fresh executor at second 100 the gates pass and
the market-access call raises; the `error` record is appended but
`last_order_time` stays 0 (line 120 of `execute_order` is only reached when
`place_order` returns), so a second attempt at second 110 — within the
60-second `min_order_interval` of the failed attempt — is not rejected but
submitted successfully, contrary to the claim. -/
theorem C1_counterexample :
    can_place_order initExecutorState 100 false = true
    ∧ (execute_order initExecutorState 100 false "buy" 5 100
        (.exn "boom") (1/10)).2.order_history.map OrderRecord.status = [OrderStatus.error]
    ∧ (execute_order initExecutorState 100 false "buy" 5 100
        (.exn "boom") (1/10)).2.last_order_time = 0
    ∧ ((110 : ℚ) - 100 < 60)
    ∧ (execute_order (execute_order initExecutorState 100 false "buy" 5 100
          (.exn "boom") (1/10)).2 110 false "sell" 5 100
        (.ok ⟨"0", "oid1", ""⟩) (1/10)).1 = ExecResult.submitted_success "oid1" := by
  norm_num [execute_order, can_place_order, timeConstraintB, initExecutorState,
    check_position_size]

/-- C1 amended: past the pre-submission gates, a failure *result* from
`place_order` appends a `failed` record and advances `last_order_time` to the
call time, so any second attempt within `min_order_interval` of that failed
attempt is rejected on the throttle gate; a raised *exception* appends an
`error` record but leaves `last_order_time` unchanged, so the exception path
does not consume the throttle window. -/
theorem C1_amended (s : ExecutorState) (now : ℚ) (risk_stop : Bool)
    (order_type : String) (size max_doge_position current_price : ℚ)
    (result : OkxResult) (emsg : String)
    (hgate : can_place_order s now risk_stop = true) :
    (result.code ≠ "0" →
      (execute_order s now risk_stop order_type size max_doge_position
          (.ok result) current_price).2.order_history
        = s.order_history
          ++ [⟨order_type, check_position_size size max_doge_position, none, "failed",
               OrderStatus.failed⟩]
      ∧ (execute_order s now risk_stop order_type size max_doge_position
          (.ok result) current_price).2.last_order_time = now
      ∧ ∀ (now2 : ℚ) (risk2 : Bool) (ot2 : String) (size2 mx2 cp2 : ℚ)
          (oc2 : PlaceOrderOutcome), now2 - now < s.min_order_interval →
          (execute_order (execute_order s now risk_stop order_type size max_doge_position
              (.ok result) current_price).2 now2 risk2 ot2 size2 mx2 oc2 cp2).1
            = ExecResult.rejected true risk2)
    ∧ (execute_order s now risk_stop order_type size max_doge_position
        (.exn emsg) current_price).2.order_history
        = s.order_history
          ++ [⟨order_type, check_position_size size max_doge_position, none, "error",
               OrderStatus.error⟩]
    ∧ (execute_order s now risk_stop order_type size max_doge_position
        (.exn emsg) current_price).2.last_order_time = s.last_order_time := by
  have hngate : ¬ can_place_order s now risk_stop = false := by simp [hgate]
  have hexn : execute_order s now risk_stop order_type size max_doge_position
      (.exn emsg) current_price
      = (ExecResult.submitted_error emsg,
         { s with order_history := s.order_history
            ++ [⟨order_type, check_position_size size max_doge_position, none, "error",
                 OrderStatus.error⟩] }) := by
    unfold execute_order
    rw [if_neg hngate]
  refine ⟨?_, by rw [hexn], by rw [hexn]⟩
  intro hcode
  have hfail : execute_order s now risk_stop order_type size max_doge_position
      (.ok result) current_price
      = (ExecResult.submitted_failed result.msg,
         { last_order_time := now, min_order_interval := s.min_order_interval,
           order_history := s.order_history
            ++ [⟨order_type, check_position_size size max_doge_position, none, "failed",
                 OrderStatus.failed⟩] }) := by
    unfold execute_order
    rw [if_neg hngate]
    dsimp only
    rw [if_neg hcode]
  refine ⟨by rw [hfail], by rw [hfail], ?_⟩
  intro now2 risk2 ot2 size2 mx2 cp2 oc2 hlt
  have ht : timeConstraintB (execute_order s now risk_stop order_type size max_doge_position
      (.ok result) current_price).2 now2 = true := by
    rw [hfail]
    simp only [timeConstraintB, decide_eq_true_eq]
    exact hlt
  have hcan : can_place_order (execute_order s now risk_stop order_type size
      max_doge_position (.ok result) current_price).2 now2 risk2 = false := by
    unfold can_place_order
    rw [ht]
    rfl
  rw [exec_rejected _ _ _ _ _ _ _ _ hcan, ht]

/-- Witness for C1 amended: fresh executor, call at second 100 with a failing
result (`code = "1"`) and an exception message, gates passing. -/
theorem C1_amended_witness :
    (((⟨"1", "", "insufficient balance"⟩ : OkxResult).code ≠ "0" →
      (execute_order initExecutorState 100 false "buy" 5 100
          (.ok ⟨"1", "", "insufficient balance"⟩) (1/10)).2.order_history
        = initExecutorState.order_history
          ++ [⟨"buy", check_position_size 5 100, none, "failed", OrderStatus.failed⟩]
      ∧ (execute_order initExecutorState 100 false "buy" 5 100
          (.ok ⟨"1", "", "insufficient balance"⟩) (1/10)).2.last_order_time = 100
      ∧ ∀ (now2 : ℚ) (risk2 : Bool) (ot2 : String) (size2 mx2 cp2 : ℚ)
          (oc2 : PlaceOrderOutcome),
          now2 - 100 < initExecutorState.min_order_interval →
          (execute_order (execute_order initExecutorState 100 false "buy" 5 100
              (.ok ⟨"1", "", "insufficient balance"⟩) (1/10)).2
              now2 risk2 ot2 size2 mx2 oc2 cp2).1
            = ExecResult.rejected true risk2)
    ∧ (execute_order initExecutorState 100 false "buy" 5 100
        (.exn "boom") (1/10)).2.order_history
        = initExecutorState.order_history
          ++ [⟨"buy", check_position_size 5 100, none, "error", OrderStatus.error⟩]
    ∧ (execute_order initExecutorState 100 false "buy" 5 100
        (.exn "boom") (1/10)).2.last_order_time = initExecutorState.last_order_time) :=
  C1_amended initExecutorState 100 false "buy" 5 100 (1/10)
    ⟨"1", "", "insufficient balance"⟩ "boom"
    (by norm_num [can_place_order, timeConstraintB, initExecutorState])

/-- The Aggregator's position size is non-negative whenever the account value
is non-negative and the price positive. -/
theorem calc_size_nonneg (signal account_value current_price : ℚ)
    (hav : 0 ≤ account_value) (hp : 0 < current_price) :
    0 ≤ calculate_position_size signal account_value current_price := by
  unfold calculate_position_size
  have hf : (0:ℚ) ≤ min 3 (max (1/2) (|signal| * 2)) :=
    le_min (by norm_num) (le_trans (by norm_num) (le_max_left _ _))
  exact div_nonneg (mul_nonneg (mul_nonneg hav (by norm_num)) hf) hp.le

/-- One bar of the replay keeps cash and position non-negative. -/
theorem simStep_preserves (st : SimState) (b : BarSignal)
    (hc : 0 ≤ st.cash) (hq : 0 ≤ st.position) (hp : 0 < b.price) :
    0 ≤ (simStep st b).1.cash ∧ 0 ≤ (simStep st b).1.position := by
  have hav : 0 ≤ st.cash + st.position * b.price :=
    add_nonneg hc (mul_nonneg hq hp.le)
  have hsize := calc_size_nonneg b.final_signal _ _ hav hp
  unfold simStep
  dsimp only
  split
  · split
    case isTrue h2 =>
      exact ⟨sub_nonneg.mpr h2.2, add_nonneg hq hsize⟩
    case isFalse h2 =>
      split
      case isTrue h3 =>
        refine ⟨add_nonneg hc ?_, sub_nonneg.mpr h3.2⟩
        apply mul_nonneg (mul_nonneg hsize hp.le)
        norm_num [commission]
      case isFalse h3 => exact ⟨hc, hq⟩
  · exact ⟨hc, hq⟩

/-- The replay invariant, over every recorded bar state. -/
theorem simStates_inv (bars : List BarSignal) (st : SimState)
    (hc : 0 ≤ st.cash) (hq : 0 ≤ st.position)
    (hp : ∀ b ∈ bars, 0 < b.price) :
    ∀ x ∈ simStates st bars, 0 ≤ x.cash ∧ 0 ≤ x.position := by
  induction bars generalizing st with
  | nil =>
    intro x hx
    simp [simStates] at hx
    rw [hx]
    exact ⟨hc, hq⟩
  | cons b bs ih =>
    intro x hx
    rw [simStates, List.scanl_cons] at hx
    rcases List.mem_cons.mp hx with h | h
    · rw [h]; exact ⟨hc, hq⟩
    · have hpb : 0 < b.price := hp b (List.mem_cons_self _ _)
      have hstep := simStep_preserves st b hc hq hpb
      exact ih (simStep st b).1 hstep.1 hstep.2
        (fun c hc2 => hp c (List.mem_cons_of_mem _ hc2)) x h

/-- A bar produces a buy trade only when cash covered the commission-inclusive
cost, and a sell trade only when the position covered the full size. -/
theorem simStep_guard (st : SimState) (b : BarSignal) (tr : SimTrade)
    (h : (simStep st b).2 = some tr) :
    (tr.type = "buy" → tr.size * b.price * (1 + commission) ≤ st.cash)
    ∧ (tr.type = "sell" → tr.size ≤ st.position) := by
  unfold simStep at h
  dsimp only at h
  split at h
  · split at h
    case isTrue h2 =>
      have htr := Option.some.inj h
      rw [← htr]
      refine ⟨fun _ => h2.2, fun hs => ?_⟩
      simp at hs
    case isFalse h2 =>
      split at h
      case isTrue h3 =>
        have htr := Option.some.inj h
        rw [← htr]
        refine ⟨fun hb => ?_, fun _ => h3.2⟩
        simp at hb
      case isFalse h3 => exact absurd h (by simp)
  · exact absurd h (by simp)

/-- C4: a buy executes only when cash covers `size * price * (1 + commission)`
and a sell only when the position covers the full size (a bar that fails the
check trades nothing); consequently, from non-negative starting cash and
position, simulated cash and position are non-negative at every recorded bar
of the replay. -/
theorem C4_sim_invariant (st0 : SimState) (bars : List BarSignal)
    (hc : 0 ≤ st0.cash) (hq : 0 ≤ st0.position)
    (hp : ∀ b ∈ bars, 0 < b.price) :
    (∀ x ∈ simStates st0 bars, 0 ≤ x.cash ∧ 0 ≤ x.position)
    ∧ ∀ (st : SimState) (b : BarSignal) (tr : SimTrade), (simStep st b).2 = some tr →
        (tr.type = "buy" → tr.size * b.price * (1 + commission) ≤ st.cash)
        ∧ (tr.type = "sell" → tr.size ≤ st.position) :=
  ⟨simStates_inv bars st0 hc hq hp, fun st b tr h => simStep_guard st b tr h⟩

/-- Witness for C4: 1000 USDT, zero position, over the four concrete bars of
`c7bars` (all positive prices). -/
theorem C4_sim_invariant_witness :
    ((∀ x ∈ simStates ⟨1000, 0⟩ c7bars, 0 ≤ x.cash ∧ 0 ≤ x.position)
    ∧ ∀ (st : SimState) (b : BarSignal) (tr : SimTrade), (simStep st b).2 = some tr →
        (tr.type = "buy" → tr.size * b.price * (1 + commission) ≤ st.cash)
        ∧ (tr.type = "sell" → tr.size ≤ st.position)) :=
  C4_sim_invariant ⟨1000, 0⟩ c7bars (by norm_num) (by norm_num)
    (by norm_num [c7bars])

/-- Every record `execute_order` appends carries a terminal status. -/
theorem exec_terminal (s : ExecutorState) (now : ℚ) (risk_stop : Bool)
    (order_type : String) (size mx : ℚ) (oc : PlaceOrderOutcome) (cp : ℚ)
    (h : ∀ r ∈ s.order_history, TerminalStatus r) :
    ∀ r ∈ (execute_order s now risk_stop order_type size mx oc cp).2.order_history,
      TerminalStatus r := by
  unfold execute_order
  split
  · exact h
  · cases oc with
    | ok result =>
      by_cases hcode : result.code = "0"
      · dsimp only
        rw [if_pos hcode]
        intro r hr
        rcases List.mem_append.mp hr with h1 | h1
        · exact h r h1
        · simp at h1; rw [h1]; exact Or.inl rfl
      · dsimp only
        rw [if_neg hcode]
        intro r hr
        rcases List.mem_append.mp hr with h1 | h1
        · exact h r h1
        · simp at h1; rw [h1]; exact Or.inr (Or.inl rfl)
    | exn msg =>
      dsimp only
      intro r hr
      rcases List.mem_append.mp hr with h1 | h1
      · exact h r h1
      · simp at h1; rw [h1]; exact Or.inr (Or.inr rfl)

theorem terminal_not_pending (r : OrderRecord) (h : TerminalStatus r) :
    r.status ≠ OrderStatus.pending := by
  rcases h with h | h | h <;> simp [h]

/-- The cancel scan finds nothing in a ledger without `pending` records. -/
theorem cancel_scan_none (h : List OrderRecord) (oid : String)
    (hnp : ∀ r ∈ h, r.status ≠ OrderStatus.pending) :
    cancel_scan h oid = none := by
  induction h with
  | nil => rfl
  | cons r rest ih =>
    have hrest := ih (fun t ht => hnp t (List.mem_cons_of_mem _ ht))
    have hcond : ¬ (r.order_id = oid ∧ r.status = OrderStatus.pending) :=
      fun hc => hnp r (List.mem_cons_self _ _) hc.2
    unfold cancel_scan
    rw [if_neg hcond, hrest]
    rfl

theorem cancel_keeps (s : ExecutorState) (oid : String)
    (hnp : ∀ r ∈ s.order_history, r.status ≠ OrderStatus.pending) :
    cancel_order s oid = (CancelResult.notCancellable, s) := by
  unfold cancel_order
  rw [cancel_scan_none _ _ hnp]

/-- Every reachable ledger holds only terminal-status records. -/
theorem reachable_terminal (s : ExecutorState) (h : Reachable s) :
    ∀ r ∈ s.order_history, TerminalStatus r := by
  induction h with
  | init => intro r hr; simp [initExecutorState] at hr
  | exec s now rs ot size mx oc cp hs ih => exact exec_terminal _ _ _ _ _ _ _ _ ih
  | cancel s oid hs ih =>
    rw [cancel_keeps s oid (fun r hr => terminal_not_pending r (ih r hr))]
    exact ih

/-- C10: on every reachable executor state, every ledger record has status
`success`, `failed` or `error` — never `pending` — and therefore
`cancel_order` always returns the failure result and leaves the state
(the ledger in particular) unchanged, for every order id. -/
theorem C10_cancel_never_succeeds (s : ExecutorState) (hs : Reachable s) (oid : String) :
    (∀ r ∈ s.order_history, TerminalStatus r)
    ∧ cancel_order s oid = (CancelResult.notCancellable, s) := by
  have ht := reachable_terminal s hs
  exact ⟨ht, cancel_keeps s oid (fun r hr => terminal_not_pending r (ht r hr))⟩

/-- Witness for C10: the state after one successfully submitted order;
cancelling that very order id fails and changes nothing. -/
theorem C10_cancel_never_succeeds_witness :
    (∀ r ∈ (execute_order initExecutorState 100 false "buy" 5 100
        (.ok ⟨"0", "oid1", ""⟩) (1/10)).2.order_history, TerminalStatus r)
    ∧ cancel_order (execute_order initExecutorState 100 false "buy" 5 100
        (.ok ⟨"0", "oid1", ""⟩) (1/10)).2 "oid1"
      = (CancelResult.notCancellable,
         (execute_order initExecutorState 100 false "buy" 5 100
            (.ok ⟨"0", "oid1", ""⟩) (1/10)).2) :=
  C10_cancel_never_succeeds _
    (Reachable.exec initExecutorState 100 false "buy" 5 100
      (.ok ⟨"0", "oid1", ""⟩) (1/10) Reachable.init) "oid1"

/-- The adjacent-pair pass skips a pair whose first entry is a sell. -/
theorem pairScan_sell_head (s : SimTrade) (rest : List SimTrade) (hs : s.type = "sell") :
    pairScan (s :: rest) = pairScan rest := by
  cases rest with
  | nil => rfl
  | cons r rs =>
    have hcond : ¬ (r.type = "sell" ∧ s.type = "buy") := by
      rintro ⟨_, h2⟩
      rw [hs] at h2
      exact absurd h2 (by decide)
    show (let acc := pairScan (r :: rs);
          if r.type = "sell" ∧ s.type = "buy" then
            let pnl := (r.price - s.price) / s.price * 100
            (if 0 < pnl then acc.1 + 1 else acc.1, acc.2 + pnl)
          else acc) = pairScan (r :: rs)
    rw [if_neg hcond]

theorem roundTripPairs_sell_head (s : SimTrade) (rest : List SimTrade) (hs : s.type = "sell") :
    roundTripPairs (s :: rest) = roundTripPairs rest := by
  cases rest with
  | nil => rfl
  | cons r rs =>
    have hcond : ¬ (s.type = "buy" ∧ r.type = "sell") := by
      rintro ⟨h1, _⟩
      rw [hs] at h1
      exact absurd h1 (by decide)
    show (if s.type = "buy" ∧ r.type = "sell" then [(s, r)] else [])
        ++ roundTripPairs (r :: rs) = roundTripPairs (r :: rs)
    rw [if_neg hcond]
    rfl

/-- On a strictly alternating trade log the code's adjacent-pair pass agrees
with the spec's round-trip pairing, and the number of pairs is
`num_trades // 2`. -/
theorem alt_stats (log : List SimTrade) (halt : AltBuySell log)
    (hpos : ∀ t ∈ log, 0 < t.price) :
    (pairScan log).1 = ((roundTripPairs log).filter (fun p => p.1.price < p.2.price)).length
    ∧ (pairScan log).2
        = ((roundTripPairs log).map (fun p => (p.2.price - p.1.price) / p.1.price * 100)).sum
    ∧ (roundTripPairs log).length = log.length / 2 := by
  induction halt with
  | nil => exact ⟨rfl, rfl, rfl⟩
  | single t ht => exact ⟨rfl, rfl, by simp [roundTripPairs]⟩
  | pair b s rest hb hs hrest ih =>
    have hbp : 0 < b.price := hpos b (List.mem_cons_self _ _)
    have hposrest : ∀ t ∈ rest, 0 < t.price :=
      fun t ht => hpos t (List.mem_cons_of_mem _ (List.mem_cons_of_mem _ ht))
    obtain ⟨ih1, ih2, ih3⟩ := ih hposrest
    have hps : pairScan (s :: rest) = pairScan rest := pairScan_sell_head s rest hs
    have hrt : roundTripPairs (s :: rest) = roundTripPairs rest :=
      roundTripPairs_sell_head s rest hs
    have hpeq : pairScan (b :: s :: rest)
        = (if 0 < (s.price - b.price) / b.price * 100 then (pairScan rest).1 + 1
           else (pairScan rest).1,
           (pairScan rest).2 + (s.price - b.price) / b.price * 100) := by
      show (if s.type = "sell" ∧ b.type = "buy" then
              ((if 0 < (s.price - b.price) / b.price * 100
                then (pairScan (s :: rest)).1 + 1 else (pairScan (s :: rest)).1),
               (pairScan (s :: rest)).2 + (s.price - b.price) / b.price * 100)
            else pairScan (s :: rest)) = _
      rw [if_pos ⟨hs, hb⟩, hps]
    have hrteq : roundTripPairs (b :: s :: rest) = (b, s) :: roundTripPairs rest := by
      show (if b.type = "buy" ∧ s.type = "sell" then [(b, s)] else [])
          ++ roundTripPairs (s :: rest) = _
      rw [if_pos ⟨hb, hs⟩, hrt]
      rfl
    have hiff : (0 < (s.price - b.price) / b.price * 100) ↔ b.price < s.price := by
      rw [div_mul_eq_mul_div, lt_div_iff₀ hbp]
      constructor <;> intro h <;> nlinarith
    refine ⟨?_, ?_, ?_⟩
    · rw [hpeq, hrteq]
      dsimp only
      by_cases hw : b.price < s.price
      · rw [if_pos (hiff.mpr hw), List.filter_cons_of_pos (by simpa using hw),
          List.length_cons, ih1]
      · rw [if_neg (fun hc => hw (hiff.mp hc)),
          List.filter_cons_of_neg (by simpa using hw), ih1]
    · rw [hpeq, hrteq]
      dsimp only
      rw [List.map_cons, List.sum_cons, ih2]
      ring
    · rw [hrteq, List.length_cons, ih3]
      simp only [List.length_cons]
      omega

/-- C7 counterexample: on `c7bars` the simulator itself produces the
pyramiding trade log buy@1, buy@1, sell@2, sell@2. The code reports
`win_rate = 50` and `avg_return_per_trade = 50` (dividing by
`num_trades // 2 = 2`), while the adjacent buy-then-sell pairs are exactly one
winning pair, so the fraction of winning pairs is 100% and the mean gain
across pairs is 100 — the reported statistics are not the pair fraction and
pair mean the claim states. -/
theorem C7_counterexample :
    c7log.map (fun t => (t.type, t.price)) = [("buy", 1), ("buy", 1), ("sell", 2), ("sell", 2)]
    ∧ (tradeStats c7log).1 = 50
    ∧ specWinRate c7log = 100
    ∧ (tradeStats c7log).2 = 50
    ∧ specAvgReturn c7log = 100 := by
  have h1 : ("sell" : String) ≠ "buy" := by decide
  have h2 : ("buy" : String) ≠ "sell" := by decide
  norm_num [c7log, c7bars, simRun, simStep, should_trade, determine_order_type,
    calculate_position_size, commission, h1, h2, tradeStats, pairScan, specWinRate,
    specAvgReturn, roundTripPairs, List.filter]

/-- C7 amended: when the trade log strictly alternates buy-then-sell (with at
most one unpaired trailing buy, which both statistics exclude) and holds at
least one round trip, the reported `win_rate` equals the percentage of
adjacent buy-then-sell pairs whose sell price exceeds the buy price, and
`avg_return_per_trade` equals the mean percentage gain across exactly those
pairs; the divisor `num_trades // 2` then equals the number of pairs. For
non-alternating logs (consecutive buys or sells) the reported statistics can
differ from the pair fraction and pair mean. -/
theorem C7_amended (log : List SimTrade) (halt : AltBuySell log)
    (hpos : ∀ t ∈ log, 0 < t.price) (hlen : 2 ≤ log.length) :
    (roundTripPairs log).length = log.length / 2
    ∧ 0 < (roundTripPairs log).length
    ∧ (tradeStats log).1 = specWinRate log
    ∧ (tradeStats log).2 = specAvgReturn log := by
  obtain ⟨h1, h2, h3⟩ := alt_stats log halt hpos
  have hpairpos : 0 < (roundTripPairs log).length := by
    rw [h3]
    omega
  have hne : (((roundTripPairs log).length : ℕ) : ℚ) ≠ 0 := by
    exact_mod_cast Nat.pos_iff_ne_zero.mp hpairpos
  refine ⟨h3, hpairpos, ?_, ?_⟩
  · simp only [tradeStats, specWinRate]
    rw [if_pos (by omega : 1 < log.length), h1, ← h3]
    field_simp
    ring
  · simp only [tradeStats, specAvgReturn]
    rw [if_pos (by omega : 1 < log.length), h2, ← h3]

/-- Witness for C7 amended: the single round trip buy@1 then sell@2. -/
theorem C7_amended_witness :
    (roundTripPairs [⟨"buy", 1, 1⟩, ⟨"sell", 1, 2⟩]).length
        = ([⟨"buy", 1, 1⟩, ⟨"sell", 1, 2⟩] : List SimTrade).length / 2
    ∧ 0 < (roundTripPairs [⟨"buy", 1, 1⟩, ⟨"sell", 1, 2⟩]).length
    ∧ (tradeStats [⟨"buy", 1, 1⟩, ⟨"sell", 1, 2⟩]).1
        = specWinRate [⟨"buy", 1, 1⟩, ⟨"sell", 1, 2⟩]
    ∧ (tradeStats [⟨"buy", 1, 1⟩, ⟨"sell", 1, 2⟩]).2
        = specAvgReturn [⟨"buy", 1, 1⟩, ⟨"sell", 1, 2⟩] :=
  C7_amended [⟨"buy", 1, 1⟩, ⟨"sell", 1, 2⟩]
    (AltBuySell.pair _ _ _ rfl rfl AltBuySell.nil)
    (by norm_num) (by norm_num)

/-- Contributions with non-negative weights only grow the accumulated
denominator. -/
theorem foldl_comb_tw_mono (weights : String → Option ℚ) (n : ℕ) (l : List Signal)
    (acc : CombAcc) (hw : ∀ s ∈ l, 0 ≤ lookupWeight weights n s.strategy) :
    acc.total_weight ≤ (l.foldl (combStep weights n) acc).total_weight := by
  induction l generalizing acc with
  | nil => exact le_refl _
  | cons s rest ih =>
    rw [List.foldl_cons]
    refine le_trans ?_ (ih _ (fun t ht => hw t (List.mem_cons_of_mem _ ht)))
    unfold combStep
    split
    case isTrue hconf =>
      dsimp only
      have hnn : 0 ≤ s.confidence * lookupWeight weights n s.strategy :=
        mul_nonneg (le_of_lt hconf) (hw s (List.mem_cons_self _ _))
      linarith
    case isFalse hconf => exact le_refl _

/-- One confident, positively weighted signal makes the denominator
positive when no weight is negative. -/
theorem foldl_comb_tw_pos (weights : String → Option ℚ) (n : ℕ) (l : List Signal)
    (acc : CombAcc) (hw : ∀ s ∈ l, 0 ≤ lookupWeight weights n s.strategy)
    (hx : ∃ s ∈ l, 0 < s.confidence ∧ 0 < lookupWeight weights n s.strategy)
    (hacc : 0 ≤ acc.total_weight) :
    0 < (l.foldl (combStep weights n) acc).total_weight := by
  induction l generalizing acc with
  | nil =>
    rcases hx with ⟨s, hs, _⟩
    simp at hs
  | cons s rest ih =>
    rw [List.foldl_cons]
    rcases hx with ⟨t, ht, htc, htw⟩
    rcases List.mem_cons.mp ht with heq | htmem
    · have hstep : 0 < (combStep weights n acc s).total_weight := by
        rw [heq] at htc htw
        unfold combStep
        rw [if_pos htc]
        dsimp only
        have := mul_pos htc htw
        linarith
      calc 0 < (combStep weights n acc s).total_weight := hstep
        _ ≤ _ := foldl_comb_tw_mono weights n rest _
            (fun u hu => hw u (List.mem_cons_of_mem _ hu))
    · apply ih _ (fun u hu => hw u (List.mem_cons_of_mem _ hu)) ⟨t, htmem, htc, htw⟩
      unfold combStep
      split
      case isTrue hconf =>
        dsimp only
        have hnn : 0 ≤ s.confidence * lookupWeight weights n s.strategy :=
          mul_nonneg hconf.le (hw s (List.mem_cons_self _ _))
        linarith
      case isFalse hconf => exact hacc

/-- C9 counterexample: in `c9signals` the signal of strategy "a" has
confidence 1 > 0 and strictly positive configured weight 1, yet with strategy
"b" configured at weight −1 the accumulated denominator is 0, so
`combine_signals` returns confidence 0, not 1. -/
theorem C9_counterexample :
    Signal.mk "a" 0 1 ∈ c9signals
    ∧ 0 < (Signal.mk "a" 0 1).confidence
    ∧ 0 < lookupWeight c9weights c9signals.length (Signal.mk "a" 0 1).strategy
    ∧ (combine_signals c9weights c9signals).confidence = 0 := by
  have h3 : ("b" : String) ≠ "a" := by decide
  refine ⟨by simp [c9signals], by norm_num, ?_, ?_⟩
  · norm_num [lookupWeight, c9weights, c9signals]
  · norm_num [combine_signals, c9weights, c9signals, combStep, lookupWeight, h3]

/-- C9 amended: provided no signal carries a negative weight, any signal with
confidence > 0 and strictly positive weight forces combined confidence
exactly 1 (the confidence numerator and denominator accumulate the identical
quantity `confidence * weight`, and the [0,1] clamp leaves 1 unchanged); and
unconditionally the combined confidence is never strictly between 0 and 1. -/
theorem C9_amended (weights : String → Option ℚ) (signals : List Signal) :
    ((∀ s ∈ signals, 0 ≤ lookupWeight weights signals.length s.strategy) →
      (∃ s ∈ signals, 0 < s.confidence
        ∧ 0 < lookupWeight weights signals.length s.strategy) →
      (combine_signals weights signals).confidence = 1)
    ∧ ((combine_signals weights signals).confidence = 0
        ∨ (combine_signals weights signals).confidence = 1) := by
  have key : 0 < (signals.foldl (combStep weights signals.length) ⟨0, 0, 0⟩).total_weight →
      (combine_signals weights signals).confidence = 1 := by
    intro htw
    have hd := foldl_comb_diff weights signals.length signals ⟨0, 0, 0⟩
    norm_num at hd
    have heq := sub_eq_zero.mp hd
    simp only [combine_signals]
    rw [if_pos htw, heq, div_self (ne_of_gt htw)]
    norm_num
  constructor
  · intro hw hx
    exact key (foldl_comb_tw_pos weights signals.length signals ⟨0, 0, 0⟩ hw hx (le_refl 0))
  · by_cases htw : 0 < (signals.foldl (combStep weights signals.length) ⟨0, 0, 0⟩).total_weight
    · exact Or.inr (key htw)
    · left
      simp only [combine_signals]
      rw [if_neg htw]
      norm_num

/-- Witness for C9 amended: a single unconfigured signal with confidence 1
(equal-split weight 1) yields combined confidence exactly 1. -/
theorem C9_amended_witness :
    (combine_signals (fun _ => none) [⟨"a", 1, 1⟩]).confidence = 1
    ∧ ((combine_signals (fun _ => none) [⟨"a", 1, 1⟩]).confidence = 0
        ∨ (combine_signals (fun _ => none) [⟨"a", 1, 1⟩]).confidence = 1) := by
  have h := C9_amended (fun _ => none) [⟨"a", 1, 1⟩]
  refine ⟨h.1 ?_ ?_, h.2⟩
  · intro s hs
    simp at hs
    rw [hs]
    norm_num [lookupWeight]
  · exact ⟨⟨"a", 1, 1⟩, by simp, by norm_num, by norm_num [lookupWeight]⟩

end DogeQuant
